import Mathlib

/-!
Verification of `src/server/default-skills/remember-fact/scripts/remember.py`:
a command-line utility performing set/get/list/delete operations on the
`agent_memory` table (columns agent_id, key, value, updated_at; unique
constraint on (agent_id, key)) and printing a single JSON object to stdout.

The table is embedded as a list of rows; each SQL statement of the script is
embedded as a list operation.  `main` of the script is embedded as `runMain`,
a pure function from the argument vector (the elements of `sys.argv` after
the program name) and the starting table to the printed JSON lines, the
table after the invocation, and the process exit code.  Storage failures
(the script's only fatal path) are outside the embedded state space: every
embedded run is a run in which storage succeeds.
-/

namespace Remember

/-- A row of the `agent_memory` table.  `updated_at` abstracts the SQL
timestamp as a number. -/
structure Row where
  agent_id : String
  key : String
  value : String
  updated_at : Nat
deriving DecidableEq, Repr

/-- The `agent_memory` table, in the row order the storage engine returns. -/
abbrev Store := List Row

/-- The WHERE clause `agent_id = ? AND key = ?` shared by the script's
SELECT, DELETE and ON CONFLICT statements. -/
def matching (a k : String) (r : Row) : Bool :=
  r.agent_id == a && r.key == k

/-- The script's upsert statement: `INSERT INTO agent_memory ... ON
CONFLICT(agent_id, key) DO UPDATE SET value = excluded.value, updated_at =
datetime('now')`.  The unique constraint on (agent_id, key) means at most one
row can conflict; the conflicting row (the first match) has its value and
updated_at replaced, otherwise the new row is inserted.  `now` stands for
`datetime('now')` (and for the insert-time default of `updated_at`, which the
externally created schema supplies). -/
def upsert (s : Store) (a k v : String) (now : Nat) : Store :=
  match s with
  | [] => [⟨a, k, v, now⟩]
  | r :: rs =>
    if matching a k r then
      { r with value := v, updated_at := now } :: rs
    else
      r :: upsert rs a k v now

/-- The script's `SELECT value FROM agent_memory WHERE agent_id = ? AND key
= ?` followed by `fetchone()`. -/
def selectOne (s : Store) (a k : String) : Option Row :=
  s.find? (matching a k)

/-- The script's `SELECT key, value FROM agent_memory WHERE agent_id = ?`
followed by `fetchall()`. -/
def selectAgent (s : Store) (a : String) : List Row :=
  s.filter (fun r => r.agent_id == a)

/-- The script's `DELETE FROM agent_memory WHERE agent_id = ? AND key = ?`. -/
def deleteRows (s : Store) (a k : String) : Store :=
  s.filter (fun r => !(matching a k r))

/-- The JSON values the script prints (it only ever builds strings, arrays
and objects; object fields keep Python dict insertion order). -/
inductive JVal where
  | str (s : String)
  | arr (elems : List JVal)
  | obj (fields : List (String × JVal))

/-- One element of the `memories` array built by the list action. -/
def memObj (r : Row) : JVal :=
  JVal.obj [("key", JVal.str r.key), ("value", JVal.str r.value)]

/-- A single-field error object, as built by `json.dumps` on an error dict. -/
def errObj (msg : String) : JVal :=
  JVal.obj [("error", JVal.str msg)]

/-- The observable result of one invocation of the script: the JSON lines
printed to stdout, the table afterwards, and the process exit code. -/
structure RunResult where
  lines : List JVal
  store : Store
  exitCode : Nat

/-- The script's `main`, embedded over the argument vector (everything after
the program name, so `args[0]` is `sys.argv[1]`) and the starting table. -/
def runMain (args : List String) (now : Nat) (s : Store) : RunResult :=
  match args with
  | action :: agent_id :: rest =>
    if action == "set" then
      match rest with
      | key :: value :: _ =>
        ⟨[JVal.obj [("status", JVal.str "remembered"), ("key", JVal.str key),
            ("value", JVal.str value)]],
          upsert s agent_id key value now, 0⟩
      | _ => ⟨[errObj "set requires <key> and <value>"], s, 0⟩
    else if action == "get" then
      match rest with
      | key :: _ =>
        match selectOne s agent_id key with
        | some r => ⟨[JVal.obj [("key", JVal.str key), ("value", JVal.str r.value)]], s, 0⟩
        | none => ⟨[JVal.obj [("error", JVal.str "not found"), ("key", JVal.str key)]], s, 0⟩
      | [] => ⟨[errObj "get requires <key>"], s, 0⟩
    else if action == "list" then
      ⟨[JVal.obj [("memories", JVal.arr ((selectAgent s agent_id).map memObj))]], s, 0⟩
    else if action == "delete" then
      match rest with
      | key :: _ => ⟨[JVal.obj [("status", JVal.str "deleted"), ("key", JVal.str key)]],
          deleteRows s agent_id key, 0⟩
      | [] => ⟨[errObj "delete requires <key>"], s, 0⟩
    else
      ⟨[errObj ("Unknown action: " ++ action ++ ". Use set, get, list, or delete.")], s, 0⟩
  | _ => ⟨[errObj "Usage: remember.py <action> <agent_id> [key] [value]"], s, 0⟩

/-- The unique constraint on (agent_id, key): no two rows of the table share
the composite key. -/
def StoreUnique (s : Store) : Prop :=
  s.Pairwise (fun r1 r2 => r1.agent_id ≠ r2.agent_id ∨ r1.key ≠ r2.key)

/-- A JSON object with an `error` field, the shape of every recoverable
error payload. -/
def hasErrorField : JVal → Bool
  | JVal.obj fields => fields.any (fun f => f.1 == "error")
  | _ => false

/-- An invocation result that reports a recoverable error: a single JSON
line with an `error` field, and exit code 0. -/
def reportsError (res : RunResult) : Prop :=
  (∃ j, res.lines = [j] ∧ hasErrorField j = true) ∧ res.exitCode = 0

/-! ### Helper lemmas about the embedded SQL operations -/

/-- `matching` spelt out with propositional equality. -/
lemma matching_eq_true_iff (a k : String) (r : Row) :
    matching a k r = true ↔ (r.agent_id = a ∧ r.key = k) := by
  simp [matching]

/-- `matching` is false exactly when the composite key differs. -/
lemma matching_eq_false_iff (a k : String) (r : Row) :
    matching a k r = false ↔ ¬(r.agent_id = a ∧ r.key = k) := by
  rw [← matching_eq_true_iff]
  cases matching a k r <;> simp

/-- The row an upsert leaves behind for (a, k): looking the key up after the
upsert finds a row whose value is the value just written. -/
lemma selectOne_upsert (a k v : String) (now : Nat) (s : Store) :
    ∃ r, selectOne (upsert s a k v now) a k = some r ∧ r.value = v := by
  induction s with
  | nil =>
    refine ⟨⟨a, k, v, now⟩, ?_, rfl⟩
    simp [upsert, selectOne, List.find?, matching]
  | cons r rs ih =>
    by_cases hm : matching a k r = true
    · refine ⟨{ r with value := v, updated_at := now }, ?_, rfl⟩
      have hm' : matching a k { r with value := v, updated_at := now } = true := by
        simpa [matching] using hm
      simp [upsert, hm, selectOne, List.find?, hm']
    · obtain ⟨r', hfind, hval⟩ := ih
      refine ⟨r', ?_, hval⟩
      have hm0 : matching a k r = false := by
        cases h : matching a k r
        · rfl
        · exact absurd h hm
      simpa [upsert, hm0, selectOne, List.find?] using hfind

/-- Claim C1: for every agent_id, key and value, a set invocation followed by
a get invocation on the same (agent_id, key) returns the payload whose value
is the value that was set. -/
theorem set_then_get (a k v : String) (now now2 : Nat) (s : Store) :
    (runMain ["get", a, k] now2 (runMain ["set", a, k, v] now s).store).lines
      = [JVal.obj [("key", JVal.str k), ("value", JVal.str v)]] := by
  obtain ⟨r, hfind, hval⟩ := selectOne_upsert a k v now s
  simp [runMain, hfind, hval]

/-- Claim C2: every invocation whose arguments fail validation (set missing
key or value; get or delete missing key) returns exactly the corresponding
JSON error payload, with the table untouched and exit code 0. -/
theorem validation_before_storage (a k : String) (now : Nat) (s : Store) :
    runMain ["set", a] now s = ⟨[errObj "set requires <key> and <value>"], s, 0⟩ ∧
    runMain ["set", a, k] now s = ⟨[errObj "set requires <key> and <value>"], s, 0⟩ ∧
    runMain ["get", a] now s = ⟨[errObj "get requires <key>"], s, 0⟩ ∧
    runMain ["delete", a] now s = ⟨[errObj "delete requires <key>"], s, 0⟩ := by
  refine ⟨?_, ?_, ?_, ?_⟩ <;> simp [runMain]

/-- Claim C3: a delete invocation returns the deleted-status payload for
every starting table, whether or not a row with that (agent_id, key)
exists: no existence check is performed. -/
theorem delete_always_reports_deleted (a k : String) (now : Nat) (s : Store) :
    (runMain ["delete", a, k] now s).lines
      = [JVal.obj [("status", JVal.str "deleted"), ("key", JVal.str k)]] := by
  simp [runMain]

/-- When some row conflicts, the upsert keeps the number of rows and puts the
freshly written row (the conflicting row with value and updated_at replaced)
in the table. -/
lemma upsert_of_any_matching (a k v : String) (now : Nat) (s : Store)
    (h : s.any (matching a k) = true) :
    (upsert s a k v now).length = s.length ∧
      Row.mk a k v now ∈ upsert s a k v now := by
  induction s with
  | nil => simp at h
  | cons r rs ih =>
    by_cases hm : matching a k r = true
    · obtain ⟨ha, hk⟩ := (matching_eq_true_iff a k r).mp hm
      have hrow : { r with value := v, updated_at := now } = Row.mk a k v now := by
        cases r
        simp_all
      constructor
      · simp [upsert, hm]
      · simp [upsert, hm, hrow]
    · have hm0 : matching a k r = false := by
        cases h0 : matching a k r
        · rfl
        · exact absurd h0 hm
      have h' : rs.any (matching a k) = true := by
        simpa [hm0] using h
      obtain ⟨hlen, hmem⟩ := ih h'
      constructor
      · simp [upsert, hm0, hlen]
      · simp [upsert, hm0]
        right
        exact hmem

/-- Every row of an upserted table either was already in the table or carries
the upserted composite key. -/
lemma mem_upsert_cases (a k v : String) (now : Nat) (s : Store) (x : Row)
    (hx : x ∈ upsert s a k v now) : x ∈ s ∨ (x.agent_id = a ∧ x.key = k) := by
  induction s with
  | nil =>
    right
    simp [upsert] at hx
    subst hx
    exact ⟨rfl, rfl⟩
  | cons r rs ih =>
    by_cases hm : matching a k r = true
    · obtain ⟨ha, hk⟩ := (matching_eq_true_iff a k r).mp hm
      simp [upsert, hm] at hx
      rcases hx with hx | hx
      · right
        subst hx
        exact ⟨ha, hk⟩
      · left
        exact List.mem_cons_of_mem _ hx
    · have hm0 : matching a k r = false := by
        cases h0 : matching a k r
        · rfl
        · exact absurd h0 hm
      simp [upsert, hm0] at hx
      rcases hx with hx | hx
      · left
        simp [hx]
      · rcases ih hx with h1 | h1
        · left
          exact List.mem_cons_of_mem _ h1
        · right
          exact h1

/-- The upsert preserves the unique constraint on (agent_id, key). -/
lemma upsert_unique (a k v : String) (now : Nat) (s : Store)
    (hu : StoreUnique s) : StoreUnique (upsert s a k v now) := by
  induction s with
  | nil => simp [upsert, StoreUnique]
  | cons r rs ih =>
    rw [StoreUnique, List.pairwise_cons] at hu
    obtain ⟨hr, hrs⟩ := hu
    by_cases hm : matching a k r = true
    · rw [show upsert (r :: rs) a k v now
          = { r with value := v, updated_at := now } :: rs by simp [upsert, hm]]
      rw [StoreUnique, List.pairwise_cons]
      exact ⟨fun x hx => hr x hx, hrs⟩
    · have hm0 : matching a k r = false := by
        cases h0 : matching a k r
        · rfl
        · exact absurd h0 hm
      rw [show upsert (r :: rs) a k v now = r :: upsert rs a k v now by simp [upsert, hm0]]
      rw [StoreUnique, List.pairwise_cons]
      refine ⟨fun x hx => ?_, ih hrs⟩
      rcases mem_upsert_cases a k v now rs x hx with h1 | h1
      · exact hr x h1
      · have := (matching_eq_false_iff a k r).mp hm0
        rw [h1.1, h1.2]
        by_cases hag : r.agent_id = a
        · right
          intro hkey
          exact this ⟨hag, hkey⟩
        · left
          exact hag

/-- Claim C4: setting an existing (agent_id, key) does not create a second
row: the row count is unchanged, the unique constraint still holds, and the
table now holds the row with the new value and the refreshed updated_at. -/
theorem set_overwrites_existing (a k v : String) (now : Nat) (s : Store) (r0 : Row)
    (hu : StoreUnique s) (h0 : r0 ∈ s) (ha : r0.agent_id = a) (hk : r0.key = k) :
    ((runMain ["set", a, k, v] now s).store).length = s.length ∧
    StoreUnique (runMain ["set", a, k, v] now s).store ∧
    Row.mk a k v now ∈ (runMain ["set", a, k, v] now s).store := by
  have hstore : (runMain ["set", a, k, v] now s).store = upsert s a k v now := by
    simp [runMain]
  have hany : s.any (matching a k) = true := by
    rw [List.any_eq_true]
    exact ⟨r0, h0, (matching_eq_true_iff a k r0).mpr ⟨ha, hk⟩⟩
  obtain ⟨hlen, hmem⟩ := upsert_of_any_matching a k v now s hany
  rw [hstore]
  exact ⟨hlen, upsert_unique a k v now s hu, hmem⟩

/-- Witness for C4 at a concrete table holding the pair being overwritten. -/
theorem set_overwrites_existing_witness :
    ((runMain ["set", "a1", "color", "blue"] 7 [⟨"a1", "color", "red", 1⟩]).store).length
        = [(⟨"a1", "color", "red", 1⟩ : Row)].length ∧
    StoreUnique (runMain ["set", "a1", "color", "blue"] 7 [⟨"a1", "color", "red", 1⟩]).store ∧
    Row.mk "a1" "color" "blue" 7
        ∈ (runMain ["set", "a1", "color", "blue"] 7 [⟨"a1", "color", "red", 1⟩]).store :=
  set_overwrites_existing "a1" "color" "blue" 7 [⟨"a1", "color", "red", 1⟩]
    ⟨"a1", "color", "red", 1⟩ (by simp [StoreUnique]) (by simp) rfl rfl

/-- A sequence of set invocations for one agent, acting on the table (the
script is invoked once per pair; only the table carries over). -/
def setMany (a : String) (now : Nat) (kvs : List (String × String)) (s : Store) : Store :=
  match kvs with
  | [] => s
  | (k, v) :: rest => setMany a now rest ((runMain ["set", a, k, v] now s).store)

/-- When no row conflicts, the upsert is an insert at the end. -/
lemma upsert_of_fresh (a k v : String) (now : Nat) (s : Store)
    (h : ∀ r ∈ s, matching a k r = false) :
    upsert s a k v now = s ++ [⟨a, k, v, now⟩] := by
  induction s with
  | nil => simp [upsert]
  | cons r rs ih =>
    have hm0 : matching a k r = false := h r (List.mem_cons_self r rs)
    have h' : ∀ r' ∈ rs, matching a k r' = false := fun r' hr' =>
      h r' (List.mem_cons_of_mem _ hr')
    simp [upsert, hm0, ih h']

/-- Rows surviving the per-agent filter after a run of fresh sets: one new
row per distinct key, on top of what was already there. -/
lemma selectAgent_setMany_length (a : String) (now : Nat)
    (kvs : List (String × String)) :
    ∀ s : Store, (kvs.map Prod.fst).Nodup →
    (∀ p ∈ kvs, ∀ r ∈ s, r.agent_id = a → r.key ≠ p.1) →
    (selectAgent (setMany a now kvs s) a).length
      = (selectAgent s a).length + kvs.length := by
  induction kvs with
  | nil =>
    intro s _ _
    simp [setMany]
  | cons p rest ih =>
    intro s hnd hfresh
    obtain ⟨k, v⟩ := p
    have hnomatch : ∀ r ∈ s, matching a k r = false := by
      intro r hr
      rw [matching_eq_false_iff]
      rintro ⟨hra, hrk⟩
      exact hfresh (k, v) (List.mem_cons_self _ _) r hr hra hrk
    have hstep : (runMain ["set", a, k, v] now s).store = s ++ [⟨a, k, v, now⟩] := by
      rw [show (runMain ["set", a, k, v] now s).store = upsert s a k v now by
        simp [runMain]]
      exact upsert_of_fresh a k v now s hnomatch
    have hnd2 : k ∉ rest.map Prod.fst ∧ (rest.map Prod.fst).Nodup := by
      simpa [List.nodup_cons] using hnd
    have hfresh' : ∀ p' ∈ rest, ∀ r ∈ s ++ [⟨a, k, v, now⟩], r.agent_id = a → r.key ≠ p'.1 := by
      intro p' hp' r hr hra
      rcases List.mem_append.mp hr with h1 | h1
      · exact hfresh p' (List.mem_cons_of_mem _ hp') r h1 hra
      · have hr2 : r = ⟨a, k, v, now⟩ := by simpa using h1
        subst hr2
        intro hkey
        have hk2 : k = p'.1 := by simpa using hkey
        exact hnd2.1 (hk2 ▸ List.mem_map_of_mem Prod.fst hp')
    have hlen : (selectAgent (s ++ [⟨a, k, v, now⟩]) a).length
        = (selectAgent s a).length + 1 := by
      simp [selectAgent, List.filter_append]
    rw [setMany, hstep]
    rw [ih (s ++ [(⟨a, k, v, now⟩ : Row)]) hnd2.2 hfresh', hlen]
    simp [Nat.add_assoc, Nat.add_comm 1]

/-- A row for a different agent is never created by a run of sets. -/
lemma mem_setMany_other_agent (a : String) (now : Nat)
    (kvs : List (String × String)) :
    ∀ s : Store, ∀ x : Row, x ∈ setMany a now kvs s → x.agent_id ≠ a → x ∈ s := by
  induction kvs with
  | nil =>
    intro s x hx _
    simpa [setMany] using hx
  | cons p rest ih =>
    intro s x hx hne
    obtain ⟨k, v⟩ := p
    rw [setMany] at hx
    have hx' := ih _ x hx hne
    rw [show (runMain ["set", a, k, v] now s).store = upsert s a k v now by
      simp [runMain]] at hx'
    rcases mem_upsert_cases a k v now s x hx' with h1 | h1
    · exact h1
    · exact absurd h1.1 hne

/-- Claim C5: starting from a table with no rows for the agent, N set
invocations with pairwise-distinct keys make the list invocation return
exactly N memory records; every record in the result comes from a row of
that agent, and rows of other agents are exactly the untouched original
ones; on a table without rows for the agent, list returns the empty
memories array. -/
theorem list_after_distinct_sets (a : String) (now now2 : Nat)
    (kvs : List (String × String)) (s : Store)
    (hnd : (kvs.map Prod.fst).Nodup)
    (hempty : ∀ r ∈ s, r.agent_id ≠ a) :
    (runMain ["list", a] now2 (setMany a now kvs s)).lines
      = [JVal.obj [("memories",
          JVal.arr ((selectAgent (setMany a now kvs s) a).map memObj))]] ∧
    ((selectAgent (setMany a now kvs s) a).map memObj).length = kvs.length ∧
    (∀ m ∈ (selectAgent (setMany a now kvs s) a).map memObj,
      ∃ x ∈ setMany a now kvs s, x.agent_id = a ∧ m = memObj x) ∧
    (∀ x ∈ setMany a now kvs s, x.agent_id ≠ a → x ∈ s) ∧
    (runMain ["list", a] now2 s).lines = [JVal.obj [("memories", JVal.arr [])]] := by
  have hfresh : ∀ p ∈ kvs, ∀ r ∈ s, r.agent_id = a → r.key ≠ p.1 := by
    intro p _ r hr hra
    exact absurd hra (hempty r hr)
  refine ⟨by simp [runMain], ?_, ?_, ?_, ?_⟩
  · rw [List.length_map, selectAgent_setMany_length a now kvs s hnd hfresh]
    have h0 : (selectAgent s a).length = 0 := by
      rw [List.length_eq_zero]
      rw [selectAgent, List.filter_eq_nil_iff]
      intro r hr
      simpa using hempty r hr
    rw [h0, Nat.zero_add]
  · intro m hm
    rw [List.mem_map] at hm
    obtain ⟨x, hx, hmx⟩ := hm
    rw [selectAgent, List.mem_filter] at hx
    exact ⟨x, hx.1, by simpa using hx.2, hmx.symm⟩
  · exact fun x hx hne => mem_setMany_other_agent a now kvs s x hx hne
  · have hsel : selectAgent s a = [] := by
      rw [selectAgent, List.filter_eq_nil_iff]
      intro r hr
      simpa using hempty r hr
    simp [runMain, hsel]

/-- Witness for C5: two sets with distinct keys on an empty table. -/
theorem list_after_distinct_sets_witness :
    (runMain ["list", "a1"] 9 (setMany "a1" 5 [("color", "blue"), ("pet", "cat")] [])).lines
      = [JVal.obj [("memories",
          JVal.arr ((selectAgent (setMany "a1" 5 [("color", "blue"), ("pet", "cat")] []) "a1").map memObj))]] ∧
    ((selectAgent (setMany "a1" 5 [("color", "blue"), ("pet", "cat")] []) "a1").map memObj).length
      = [("color", "blue"), ("pet", "cat")].length ∧
    (∀ m ∈ (selectAgent (setMany "a1" 5 [("color", "blue"), ("pet", "cat")] []) "a1").map memObj,
      ∃ x ∈ setMany "a1" 5 [("color", "blue"), ("pet", "cat")] [],
        x.agent_id = "a1" ∧ m = memObj x) ∧
    (∀ x ∈ setMany "a1" 5 [("color", "blue"), ("pet", "cat")] [],
      x.agent_id ≠ "a1" → x ∈ ([] : Store)) ∧
    (runMain ["list", "a1"] 9 ([] : Store)).lines
      = [JVal.obj [("memories", JVal.arr [])]] :=
  list_after_distinct_sets "a1" 5 9 [("color", "blue"), ("pet", "cat")] []
    (by simp) (by simp)

/-- Under the unique constraint, the fetched row for (a, k) is the one
matching row of the table. -/
lemma selectOne_eq_of_unique (a k : String) (s : Store) (r0 : Row)
    (hu : StoreUnique s) (h0 : r0 ∈ s) (ha : r0.agent_id = a) (hk : r0.key = k) :
    selectOne s a k = some r0 := by
  have hex : (s.find? (matching a k)).isSome := by
    rw [List.find?_isSome]
    exact ⟨r0, h0, (matching_eq_true_iff a k r0).mpr ⟨ha, hk⟩⟩
  obtain ⟨m, hm⟩ := Option.isSome_iff_exists.mp hex
  have hmem : m ∈ s := List.mem_of_find?_eq_some hm
  have hmatch := (matching_eq_true_iff a k m).mp (List.find?_some hm)
  have hsymm : Symmetric (fun r1 r2 : Row => r1.agent_id ≠ r2.agent_id ∨ r1.key ≠ r2.key) := by
    intro x y hxy
    rcases hxy with h | h
    · exact Or.inl (Ne.symm h)
    · exact Or.inr (Ne.symm h)
  have hmr0 : m = r0 := by
    by_contra hne
    rcases hu.forall hsymm hmem h0 hne with h | h
    · exact h (hmatch.1.trans ha.symm)
    · exact h (hmatch.2.trans hk.symm)
  rw [selectOne, hm, hmr0]

/-- Claim C6: get returns the not-found error payload as a normal result
when no row with the composite key exists, and the key-value payload of the
stored row when it does. -/
theorem get_found_or_not_found (a k : String) (now : Nat) (s : Store) :
    ((∀ r ∈ s, ¬(r.agent_id = a ∧ r.key = k)) →
      (runMain ["get", a, k] now s).lines
        = [JVal.obj [("error", JVal.str "not found"), ("key", JVal.str k)]]) ∧
    (∀ r0 : Row, StoreUnique s → r0 ∈ s → r0.agent_id = a → r0.key = k →
      (runMain ["get", a, k] now s).lines
        = [JVal.obj [("key", JVal.str k), ("value", JVal.str r0.value)]]) := by
  constructor
  · intro h
    have hnone : selectOne s a k = none := by
      rw [selectOne, List.find?_eq_none]
      intro x hx
      rw [matching_eq_true_iff]
      exact h x hx
    simp [runMain, hnone]
  · intro r0 hu h0 ha hk
    have hsome := selectOne_eq_of_unique a k s r0 hu h0 ha hk
    simp [runMain, hsome]

/-- Witness for C6: a missing key on the empty table, and a present key. -/
theorem get_found_or_not_found_witness :
    (runMain ["get", "a1", "color"] 0 []).lines
      = [JVal.obj [("error", JVal.str "not found"), ("key", JVal.str "color")]] ∧
    (runMain ["get", "a1", "color"] 0 [⟨"a1", "color", "blue", 3⟩]).lines
      = [JVal.obj [("key", JVal.str "color"), ("value", JVal.str "blue")]] :=
  ⟨(get_found_or_not_found "a1" "color" 0 []).1 (by simp),
   (get_found_or_not_found "a1" "color" 0 [⟨"a1", "color", "blue", 3⟩]).2
     ⟨"a1", "color", "blue", 3⟩ (by simp [StoreUnique]) (by simp) rfl rfl⟩

/-- A result whose single line is an object with `error` as first field
reports a recoverable error. -/
lemma reportsError_of_error_head (j : JVal) (fs : List (String × JVal)) (s : Store) :
    reportsError ⟨[JVal.obj (("error", j) :: fs)], s, 0⟩ :=
  ⟨⟨JVal.obj (("error", j) :: fs), rfl, by simp [hasErrorField]⟩, rfl⟩

/-- Claim C7: every recoverable error (too few arguments, missing key or
value, unknown action, key not found on get) is reported as a JSON payload
with an error field, and the process exits with code 0. -/
theorem recoverable_errors_exit_zero (act a k : String) (rest args : List String)
    (now : Nat) (s : Store) :
    (args.length < 2 → reportsError (runMain args now s)) ∧
    reportsError (runMain ["set", a] now s) ∧
    reportsError (runMain ["set", a, k] now s) ∧
    reportsError (runMain ["get", a] now s) ∧
    reportsError (runMain ["delete", a] now s) ∧
    (act ≠ "set" → act ≠ "get" → act ≠ "list" → act ≠ "delete" →
      reportsError (runMain (act :: a :: rest) now s)) ∧
    ((∀ r ∈ s, ¬(r.agent_id = a ∧ r.key = k)) →
      reportsError (runMain ["get", a, k] now s)) := by
  refine ⟨?_, ?_, ?_, ?_, ?_, ?_, ?_⟩
  · intro h
    match args with
    | [] => exact reportsError_of_error_head _ _ _
    | [_] => exact reportsError_of_error_head _ _ _
    | _ :: _ :: _ =>
      rw [List.length_cons, List.length_cons] at h
      exact absurd h (by omega)
  · rw [show runMain ["set", a] now s = ⟨[errObj "set requires <key> and <value>"], s, 0⟩
      from by simp [runMain]]
    exact reportsError_of_error_head _ _ _
  · rw [show runMain ["set", a, k] now s = ⟨[errObj "set requires <key> and <value>"], s, 0⟩
      from by simp [runMain]]
    exact reportsError_of_error_head _ _ _
  · rw [show runMain ["get", a] now s = ⟨[errObj "get requires <key>"], s, 0⟩
      from by simp [runMain]]
    exact reportsError_of_error_head _ _ _
  · rw [show runMain ["delete", a] now s = ⟨[errObj "delete requires <key>"], s, 0⟩
      from by simp [runMain]]
    exact reportsError_of_error_head _ _ _
  · intro h1 h2 h3 h4
    rw [show runMain (act :: a :: rest) now s
        = ⟨[errObj ("Unknown action: " ++ act ++ ". Use set, get, list, or delete.")], s, 0⟩
      from by simp [runMain, h1, h2, h3, h4]]
    exact reportsError_of_error_head _ _ _
  · intro h
    have hnone : selectOne s a k = none := by
      rw [selectOne, List.find?_eq_none]
      intro x hx
      rw [matching_eq_true_iff]
      exact h x hx
    rw [show runMain ["get", a, k] now s
        = ⟨[JVal.obj [("error", JVal.str "not found"), ("key", JVal.str k)]], s, 0⟩
      from by simp [runMain, hnone]]
    exact reportsError_of_error_head _ _ _

/-- Witness for C7 at concrete error-producing invocations. -/
theorem recoverable_errors_exit_zero_witness :
    reportsError (runMain ["lone"] 0 []) ∧
    reportsError (runMain ["set", "a1"] 0 []) ∧
    reportsError (runMain ["wat", "a1"] 0 []) ∧
    reportsError (runMain ["get", "a1", "color"] 0 []) :=
  ⟨(recoverable_errors_exit_zero "wat" "a1" "color" [] ["lone"] 0 []).1 (by simp),
   (recoverable_errors_exit_zero "wat" "a1" "color" [] ["lone"] 0 []).2.1,
   (recoverable_errors_exit_zero "wat" "a1" "color" [] ["lone"] 0 []).2.2.2.2.2.1
     (by simp) (by simp) (by simp) (by simp),
   (recoverable_errors_exit_zero "wat" "a1" "color" [] ["lone"] 0 []).2.2.2.2.2.2
     (by simp)⟩

/-- Claim C8: every invocation (storage succeeding, as the embedding
assumes) prints exactly one JSON line, whatever the action and outcome. -/
theorem exactly_one_output_line (args : List String) (now : Nat) (s : Store) :
    (runMain args now s).lines.length = 1 := by
  unfold runMain
  repeat first
  | rfl
  | split

/-- Claim C9: the get and list actions never modify the table, whatever the
remaining arguments and the starting state (validation failures included). -/
theorem get_list_leave_store (rest : List String) (now : Nat) (s : Store) :
    (runMain ("get" :: rest) now s).store = s ∧
    (runMain ("list" :: rest) now s).store = s := by
  constructor
  · match rest with
    | [] => rfl
    | [_] => rfl
    | a :: key :: tl =>
      cases hsel : selectOne s a key <;> simp [runMain, hsel]
  · match rest with
    | [] => rfl
    | _ :: _ => rfl

/-- Rows whose composite key differs from the upserted one keep their exact
multiplicity in the table. -/
lemma count_upsert_of_not_matching (a k v : String) (now : Nat) (s : Store) (x : Row)
    (hx : matching a k x = false) :
    (upsert s a k v now).count x = s.count x := by
  have hxa : ¬(x.agent_id = a ∧ x.key = k) := (matching_eq_false_iff a k x).mp hx
  induction s with
  | nil =>
    have hne : (⟨a, k, v, now⟩ : Row) ≠ x := by
      intro h
      exact hxa ⟨by rw [← h], by rw [← h]⟩
    simp [upsert, List.count_cons, hne]
  | cons r rs ih =>
    by_cases hm : matching a k r = true
    · obtain ⟨hra, hrk⟩ := (matching_eq_true_iff a k r).mp hm
      have hne1 : ({ r with value := v, updated_at := now } : Row) ≠ x := by
        intro h
        exact hxa ⟨by rw [← h]; exact hra, by rw [← h]; exact hrk⟩
      have hne2 : r ≠ x := by
        intro h
        exact hxa ⟨by rw [← h]; exact hra, by rw [← h]; exact hrk⟩
      rw [show upsert (r :: rs) a k v now
          = { r with value := v, updated_at := now } :: rs from by simp [upsert, hm]]
      simp [List.count_cons, hne1, hne2]
    · have hm0 : matching a k r = false := by
        cases h0 : matching a k r
        · rfl
        · exact absurd h0 hm
      rw [show upsert (r :: rs) a k v now = r :: upsert rs a k v now from by
        simp [upsert, hm0]]
      simp [List.count_cons, ih]

/-- Rows whose composite key differs from the deleted one keep their exact
multiplicity in the table. -/
lemma count_deleteRows_of_not_matching (a k : String) (s : Store) (x : Row)
    (hx : matching a k x = false) :
    (deleteRows s a k).count x = s.count x := by
  induction s with
  | nil => rfl
  | cons r rs ih =>
    by_cases hrx : r = x
    · subst hrx
      rw [show deleteRows (r :: rs) a k = r :: deleteRows rs a k from by
        simp [deleteRows, List.filter_cons, hx]]
      simp [List.count_cons, ih]
    · by_cases hm : matching a k r = true
      · rw [show deleteRows (r :: rs) a k = deleteRows rs a k from by
          simp [deleteRows, List.filter_cons, hm]]
        simp [List.count_cons, hrx, ih]
      · have hm0 : matching a k r = false := by
          cases h0 : matching a k r
          · rfl
          · exact absurd h0 hm
        rw [show deleteRows (r :: rs) a k = r :: deleteRows rs a k from by
          simp [deleteRows, List.filter_cons, hm0]]
        simp [List.count_cons, hrx, ih]

/-- Claim C10: set and delete touch at most the row with the given
(agent_id, key): every row whose composite key differs, rows of other agents
included, occurs in the table after the operation exactly as often as
before. -/
theorem set_delete_frame (a k v : String) (now : Nat) (s : Store) (x : Row)
    (hx : ¬(x.agent_id = a ∧ x.key = k)) :
    ((runMain ["set", a, k, v] now s).store).count x = s.count x ∧
    ((runMain ["delete", a, k] now s).store).count x = s.count x := by
  have hx0 : matching a k x = false := (matching_eq_false_iff a k x).mpr hx
  constructor
  · rw [show (runMain ["set", a, k, v] now s).store = upsert s a k v now from by
      simp [runMain]]
    exact count_upsert_of_not_matching a k v now s x hx0
  · rw [show (runMain ["delete", a, k] now s).store = deleteRows s a k from by
      simp [runMain]]
    exact count_deleteRows_of_not_matching a k s x hx0

/-- Witness for C10: a table holding the targeted row, another row of the
same agent and a row of another agent. -/
theorem set_delete_frame_witness :
    ((runMain ["set", "a1", "color", "blue"] 7
        [⟨"a1", "color", "red", 1⟩, ⟨"a1", "pet", "cat", 1⟩, ⟨"a2", "color", "green", 1⟩]).store).count
        ⟨"a2", "color", "green", 1⟩
      = [⟨"a1", "color", "red", 1⟩, ⟨"a1", "pet", "cat", 1⟩,
          (⟨"a2", "color", "green", 1⟩ : Row)].count ⟨"a2", "color", "green", 1⟩ ∧
    ((runMain ["delete", "a1", "color"] 7
        [⟨"a1", "color", "red", 1⟩, ⟨"a1", "pet", "cat", 1⟩, ⟨"a2", "color", "green", 1⟩]).store).count
        ⟨"a2", "color", "green", 1⟩
      = [⟨"a1", "color", "red", 1⟩, ⟨"a1", "pet", "cat", 1⟩,
          (⟨"a2", "color", "green", 1⟩ : Row)].count ⟨"a2", "color", "green", 1⟩ :=
  set_delete_frame "a1" "color" "blue" 7
    [⟨"a1", "color", "red", 1⟩, ⟨"a1", "pet", "cat", 1⟩, ⟨"a2", "color", "green", 1⟩]
    ⟨"a2", "color", "green", 1⟩ (by simp)

end Remember
